import Mathlib

/-!
Verification of the redka key registry and sorted-set algebra.

The development shallowly embeds the `rkey` transaction layer
(`src/internal/rkey/tx.go`) and the sorted-set commands `InterCmd`,
`UnionCmd` and `RangeCmd` (`src/unnamed/part_000`, `src/unnamed/part_001`).
SQL statements are embedded by their meaning over an explicit relational
state (`Db`): the `rkey` table is a list of key records in insertion order
and the `rzset` table a list of member rows.  Go `float64` scores are
modelled as rationals; the properties at stake are relational and do not
depend on rounding.  Timestamps are integers (milliseconds).
-/

set_option autoImplicit false

namespace Redka

/-- Score of a sorted-set member (`score REAL` in the schema). -/
abbrev Score := Rat

/-- A row of the `rkey` table (`core.Key`). -/
structure KeyRec where
  id : Nat
  key : String
  type : Nat
  version : Nat
  etime : Option Int
  mtime : Int
  deriving Repr, DecidableEq

/-- A row of the `rzset` table. -/
structure ZRow where
  keyId : Nat
  elem : String
  score : Score
  deriving Repr, DecidableEq

/-- The relational store: the `rkey` and `rzset` tables, as lists in
insertion (rowid) order. -/
structure Db where
  rkey : List KeyRec
  rzset : List ZRow
  deriving Repr, DecidableEq

/-- Modelled from the spec: `core.TypeSortedSet`, the small-integer type tag
for sorted sets ("sorted-set has its own value"); the `core` package is not
part of the sources.  The concrete value is irrelevant, only its identity. -/
def typeSortedSet : Nat := 5

/-- Modelled from the spec: `core.InitialVersion`, the version given to a
freshly inserted key record. -/
def initialVersion : Nat := 0

/-- The TTL visibility predicate `(etime is null or etime > :now)`. -/
def live (now : Int) (k : KeyRec) : Bool :=
  match k.etime with
  | none => true
  | some e => now < e

/-- Modelled from the spec: the schema constraint `key TEXT UNIQUE` (§6) —
two rows of `rkey` carrying the same name are the same row. -/
def UniqueKeys (db : Db) : Prop :=
  ∀ a ∈ db.rkey, ∀ b ∈ db.rkey, a.key = b.key → a = b

instance (db : Db) : Decidable (UniqueKeys db) := by
  unfold UniqueKeys; infer_instance

/-- Element/score pair returned by the sorted-set queries (`SetItem`). -/
structure SetItem where
  elem : String
  score : Score
  deriving Repr, DecidableEq

/-- Aggregate selector; the Go code carries it as the SQL token
(`sqlx.Sum`/`sqlx.Min`/`sqlx.Max`) spliced into the query text. -/
inductive Agg where
  | sum
  | min
  | max
  deriving Repr, DecidableEq

/-- SQL aggregation of a group of scores.  Groups produced by `group by`
are never empty; the value on `[]` is arbitrary. -/
def aggScores : Agg → List Score → Score
  | .sum, l => l.foldl (· + ·) 0
  | .min, [] => 0
  | .min, s :: l => l.foldl Min.min s
  | .max, [] => 0
  | .max, s :: l => l.foldl Max.max s

/-- Sort direction (`sqlx.Asc` / `sqlx.Desc`). -/
inductive Dir where
  | asc
  | desc
  deriving Repr, DecidableEq

/-- `order by score asc, elem asc` comparison on items. -/
def itemLeAsc (a b : SetItem) : Bool :=
  a.score < b.score || (a.score == b.score && a.elem ≤ b.elem)

/-- `order by score desc, elem desc` comparison on items. -/
def itemLeDesc (a b : SetItem) : Bool :=
  b.score < a.score || (a.score == b.score && b.elem ≤ a.elem)

/-- Insert into a list sorted by `le` (used to embed `order by`). -/
def insertBy {α : Type} (le : α → α → Bool) (a : α) : List α → List α
  | [] => [a]
  | b :: t => if le a b then a :: b :: t else b :: insertBy le a t

/-- Sort by `le` (insertion sort; structurally recursive so that concrete
query results reduce inside the kernel). -/
def sortBy {α : Type} (le : α → α → Bool) : List α → List α
  | [] => []
  | a :: t => insertBy le a (sortBy le t)

/-- Order a result set by `(score, elem)` in the given direction. -/
def sortItems (dir : Dir) (l : List SetItem) : List SetItem :=
  match dir with
  | .asc => sortBy itemLeAsc l
  | .desc => sortBy itemLeDesc l

/-! ### The `rzset ⋈ rkey` join shared by all sorted-set queries

Every sorted-set query starts from
`from rzset join rkey on key_id = rkey.id and (etime is null or etime > :now)`
with a predicate on `key`; in SQL multiset semantics each `rzset` row pairs
with each matching `rkey` row.  The `where key in (:keys)` clause is a
predicate (the in-list produced by `sqlx.ExpandIn` tests membership), so a
row matches at most once however often its name repeats in the list. -/

/-- Joined rows of `rzset` and `rkey` whose key name satisfies `p`. -/
def joined (db : Db) (now : Int) (p : String → Bool) : List (ZRow × KeyRec) :=
  db.rzset.flatMap fun z =>
    (db.rkey.filter fun k => k.id == z.keyId && live now k && p k.key).map
      fun k => (z, k)

/-- The distinct grouping values of `group by elem`. -/
def groupElems (rows : List (ZRow × KeyRec)) : List String :=
  (rows.map fun r => r.1.elem).dedup

/-- The rows of one `group by elem` group. -/
def groupRows (rows : List (ZRow × KeyRec)) (e : String) : List (ZRow × KeyRec) :=
  rows.filter fun r => r.1.elem == e

/-- `count(distinct key_id)` over a group. -/
def distinctKeyIds (rows : List (ZRow × KeyRec)) : Nat :=
  ((rows.map fun r => r.1.keyId).dedup).length

/-- `sqlInter` / `sqlInterStore2`'s select: group the joined rows by
element, keep the groups touching `nkeys` distinct key ids, aggregate the
scores, and order by `(aggregated score, elem)` ascending.
Embeds `InterCmd.inter` (part_000 lines 111-143) after aggregate
substitution and in-list expansion. -/
def interQuery (db : Db) (now : Int) (keys : List String) (agg : Agg) :
    List SetItem :=
  let rows := joined db now fun s => keys.contains s
  let kept := (groupElems rows).filter fun e =>
    distinctKeyIds (groupRows rows e) == keys.length
  sortItems .asc
    (kept.map fun e => ⟨e, aggScores agg ((groupRows rows e).map fun r => r.1.score)⟩)

/-- `sqlUnion` / `sqlUnionStore2`'s select: same as `interQuery` but with no
`having` clause.  Embeds `UnionCmd.union` (part_001 lines 316-348). -/
def unionQuery (db : Db) (now : Int) (keys : List String) (agg : Agg) :
    List SetItem :=
  let rows := joined db now fun s => keys.contains s
  sortItems .asc
    ((groupElems rows).map fun e =>
      ⟨e, aggScores agg ((groupRows rows e).map fun r => r.1.score)⟩)

/-! ### Range queries (`RangeCmd`, part_001 lines 12-205) -/

/-- The member rows of key `key` visible at `now`, as items (the `from`
clause shared by `sqlRangeRank` and `sqlRangeScore`). -/
def keyItems (db : Db) (now : Int) (key : String) : List SetItem :=
  (joined db now fun s => s == key).map fun r => ⟨r.1.elem, r.1.score⟩

/-- `RangeCmd.rangeRank` (part_001 lines 114-155): reject negative bounds,
rank the set by `(score, elem)` in the requested direction (the window's
`order by` tokens are both rewritten by the direction substitution), keep
ranks in `[start, stop]`, and emit them ordered by rank — ascending rank
for `asc`; for `desc` the outer `order by rank asc` is also rewritten to
`rank desc`, so the kept rows come out in descending rank order. -/
def rangeRank (db : Db) (now : Int) (key : String) (start stop : Int)
    (dir : Dir) : List SetItem :=
  if start < 0 || stop < 0 then []
  else
    let ranked := (sortItems dir (keyItems db now key)).enum
    let kept := ranked.filter fun p => start ≤ (p.1 : Int) && (p.1 : Int) ≤ stop
    let ordered := match dir with | .asc => kept | .desc => kept.reverse
    ordered.map fun p => p.2

/-- The rows matched by `sqlRangeScore` before the limit clause: members of
`key` with `score between :start and :stop`, ordered by `(score, elem)` in
the requested direction. -/
def scoreMatching (db : Db) (now : Int) (key : String) (start stop : Score)
    (dir : Dir) : List SetItem :=
  sortItems dir ((keyItems db now key).filter fun it =>
    start ≤ it.score && it.score ≤ stop)

/-- `RangeCmd.rangeScore` (part_001 lines 158-205): the score-bounded,
ordered rows with the optional limit clause applied —
`limit :offset, :count` when both are positive, `limit :count` when only
the count is, `limit :offset, -1` (skip, no cap) when only the offset is,
and no clause otherwise. -/
def rangeScore (db : Db) (now : Int) (key : String) (start stop : Score)
    (dir : Dir) (offset count : Int) : List SetItem :=
  let sorted := scoreMatching db now key start stop dir
  if 0 < offset ∧ 0 < count then (sorted.drop offset.toNat).take count.toNat
  else if 0 < count then sorted.take count.toNat
  else if 0 < offset then sorted.drop offset.toNat
  else sorted

/-- `RangeCmd.Run` (part_001 lines 103-111): dispatch on the configured
filter; with neither filter set, return the nil slice. -/
def RangeCmd.Run (db : Db) (now : Int) (key : String)
    (byRank : Option (Int × Int)) (byScore : Option (Score × Score))
    (dir : Dir) (offset count : Int) : List SetItem :=
  match byRank with
  | some (start, stop) => rangeRank db now key start stop dir
  | none =>
    match byScore with
    | some (start, stop) => rangeScore db now key start stop dir offset count
    | none => []

/-! ### Key registry (`rkey/tx.go`)

The glob pattern of `keys`/`scan` is carried as a match predicate
`String → Bool`: the queries use `key glob :pattern` purely as a row
filter, and no claim depends on the internals of SQLite's GLOB. -/

/-- `Get` (tx.go lines 405-415): the live row named `key`, or `none` (the
Go code turns `sql.ErrNoRows` into the empty record). -/
def getKey (db : Db) (now : Int) (key : String) : Option KeyRec :=
  db.rkey.find? fun k => k.key == key && live now k

/-- `scanPageSize` (tx.go line 86). -/
def scanPageSize : Nat := 10

/-- Result of a `Scan` call (tx.go lines 338-342). -/
structure ScanResult where
  cursor : Nat
  keys : List KeyRec
  deriving Repr, DecidableEq

/-- The `for` loop of `Tx.Scan` computing the maximum id (tx.go 157-163). -/
def maxId (keys : List KeyRec) : Nat :=
  keys.foldl (fun m k => Nat.max m k.id) 0

/-- `Tx.Scan` (tx.go lines 135-166): default the page size, select the
rows with `id > :cursor`, a matching name and a live record, `limit` the
page, and pair it with the maximum id seen.  `sqlScan` carries no
`order by`; the embedding takes the rows in table (rowid) order, which is
how SQLite enumerates `rkey` here. -/
def txScan (db : Db) (now : Int) (cursor : Nat) (pattern : String → Bool)
    (pageSize : Nat) : ScanResult :=
  let pageSize := if pageSize = 0 then scanPageSize else pageSize
  let keys := (db.rkey.filter fun k =>
    cursor < k.id && pattern k.key && live now k).take pageSize
  ⟨maxId keys, keys⟩

/-- Iterator state (tx.go lines 346-355).  The pure store cannot fail, so
the sticky `err` field has no counterpart. -/
structure Scanner where
  cursor : Nat
  pattern : String → Bool
  pageSize : Nat
  index : Nat
  cur : KeyRec
  keys : List KeyRec

/-- `newScanner` (tx.go lines 357-369). -/
def newScanner (pattern : String → Bool) (pageSize : Nat) : Scanner :=
  { cursor := 0
    pattern := pattern
    pageSize := if pageSize = 0 then scanPageSize else pageSize
    index := 0
    cur := ⟨0, "", 0, 0, none, 0⟩
    keys := [] }

/-- `Scanner.Scan` (tx.go lines 373-392), one advance against store `db`
at time `now`.  Returns the boolean result, the new iterator state, and
the number of page fetches the call issued (0 or 1), so that claims about
refetching are expressible. -/
def Scanner.scan (db : Db) (now : Int) (sc : Scanner) :
    Bool × Scanner × Nat :=
  if sc.index ≥ sc.keys.length then
    let out := txScan db now sc.cursor sc.pattern sc.pageSize
    let sc1 : Scanner :=
      { sc with cursor := out.cursor, keys := out.keys, index := 0 }
    if out.keys.length = 0 then (false, sc1, 1)
    else
      (true,
        { sc1 with cur := sc1.keys.getD sc1.index ⟨0, "", 0, 0, none, 0⟩,
                   index := sc1.index + 1 }, 1)
  else
    (true,
      { sc with cur := sc.keys.getD sc.index ⟨0, "", 0, 0, none, 0⟩,
                index := sc.index + 1 }, 0)

/-- Error kinds surfaced by the core (`core.ErrNotFound`, `core.ErrKeyType`;
the pure store has no `store-failure`). -/
inductive Err where
  | notFound
  | keyType
  deriving Repr, DecidableEq

/-- `Delete` (tx.go lines 428-438): remove the live rows carrying one of
the names and report how many went.  Dependent `rzset` members go with
their key row (modelled from the spec: invariant 2's conceptual cascade
lives in the schema, outside these sources). -/
def deleteKeys (db : Db) (now : Int) (names : List String) : Nat × Db :=
  let gone := db.rkey.filter fun k => names.contains k.key && live now k
  (gone.length,
    ⟨db.rkey.filter fun k => !(names.contains k.key && live now k),
     db.rzset.filter fun z => !(gone.any fun k => k.id == z.keyId)⟩)

/-- `DeleteType` (tx.go lines 443-453): like `deleteKeys` but only rows of
the given type tag. -/
def deleteType (db : Db) (now : Int) (typ : Nat) (names : List String) :
    Nat × Db :=
  let gone := db.rkey.filter fun k =>
    names.contains k.key && live now k && k.type == typ
  (gone.length,
    ⟨db.rkey.filter fun k => !(names.contains k.key && live now k && k.type == typ),
     db.rzset.filter fun z => !(gone.any fun k => k.id == z.keyId)⟩)

/-- `Tx.ExpireAt` (tx.go lines 206-219): set `etime` on the live row of
the name; report whether a row was updated. -/
def expireAt (db : Db) (now : Int) (key : String) (atMs : Int) : Db × Bool :=
  (⟨db.rkey.map fun k =>
      if k.key == key && live now k then { k with etime := some atMs } else k,
    db.rzset⟩,
   db.rkey.any fun k => k.key == key && live now k)

/-- `Tx.Expire` (tx.go lines 198-201): expiry `ttl` (ms) from now. -/
def expire (db : Db) (now : Int) (key : String) (ttl : Int) : Db × Bool :=
  expireAt db now key (now + ttl)

/-- `Tx.Persist` (tx.go lines 223-232): clear `etime` on the live row of
the name; report whether a row was updated. -/
def persist (db : Db) (now : Int) (key : String) : Db × Bool :=
  (⟨db.rkey.map fun k =>
      if k.key == key && live now k then { k with etime := none } else k,
    db.rzset⟩,
   db.rkey.any fun k => k.key == key && live now k)

/-- The `sqlRename` statement (tx.go lines 43-58), for `old ≠ new`: the
live row named `old` is overwritten in place with
`(id, new, type, version+1, etime, now)` projected from itself, and — by
`update or replace` — any other row named `new` (necessarily expired,
since `rename` deleted the live ones first) is displaced to satisfy the
name uniqueness constraint. -/
def renameExec (db : Db) (now : Int) (old new_ : String) : Db :=
  match getKey db now old with
  | none => db
  | some pre =>
    ⟨(db.rkey.filter fun r => !(r.key == new_)).map fun r =>
        if r.key == old && live now r then
          ⟨pre.id, new_, pre.type, pre.version + 1, pre.etime, now⟩
        else r,
     db.rzset⟩

/-- `Tx.Rename` (tx.go lines 236-266): fail with not-found when `old` has
no live row, do nothing when the names are equal, otherwise delete the
live row at `new` (any type) and run `sqlRename`. -/
def rename (db : Db) (now : Int) (key newKey : String) : Except Err Db :=
  match getKey db now key with
  | none => .error .notFound
  | some _ =>
    if key == newKey then .ok db
    else
      let db1 := (deleteKeys db now [newKey]).2
      .ok (renameExec db1 now key newKey)

/-! ### Store forms of intersect and union -/

/-- Modelled from the spec: `id` of a fresh `rkey` row is "monotonically
assigned" by the store (`insert … returning id`); the next id is one past
the largest in the table. -/
def nextId (db : Db) : Nat := 1 + maxId db.rkey

/-- `sqlInterStore1` / `sqlUnionStore1`: insert the fresh destination record
and return its id.  Modelled from the spec (§6): the `key TEXT UNIQUE`
constraint makes the insert fail whenever any row — live or expired — still
carries the name, and `sqlx.TypedError` classifies that constraint
violation as the wrong-type error. -/
def insertKey (db : Db) (now : Int) (name : String) (typ : Nat) :
    Except Err (Nat × Db) :=
  if db.rkey.any fun k => k.key == name then .error .keyType
  else
    let id := nextId db
    .ok (id,
      ⟨db.rkey ++ [⟨id, name, typ, initialVersion, none, now⟩], db.rzset⟩)

/-- `InterCmd.store` (part_000 lines 146-183), run inside a transaction:
delete a sorted-set-typed live destination, insert the fresh destination
record, run the intersect select inserting its rows under the new id, and
return the number of rows inserted.  The state after the call is returned
alongside, so partially applied effects before a failure are visible. -/
def interStore (db : Db) (now : Int) (dest : String) (keys : List String)
    (agg : Agg) : Except Err Nat × Db :=
  let db1 := (deleteType db now typeSortedSet [dest]).2
  match insertKey db1 now dest typeSortedSet with
  | .error e => (.error e, db1)
  | .ok (kid, db2) =>
    let items := interQuery db2 now keys agg
    (.ok items.length,
      ⟨db2.rkey, db2.rzset ++ items.map fun it => ⟨kid, it.elem, it.score⟩⟩)

/-- `UnionCmd.store` (part_001 lines 351-388): as `interStore` with the
union select. -/
def unionStore (db : Db) (now : Int) (dest : String) (keys : List String)
    (agg : Agg) : Except Err Nat × Db :=
  let db1 := (deleteType db now typeSortedSet [dest]).2
  match insertKey db1 now dest typeSortedSet with
  | .error e => (.error e, db1)
  | .ok (kid, db2) =>
    let items := unionQuery db2 now keys agg
    (.ok items.length,
      ⟨db2.rkey, db2.rzset ++ items.map fun it => ⟨kid, it.elem, it.score⟩⟩)

/-- Which execution handle a command descriptor carries (`c.db` / `c.tx`,
both possibly nil). -/
inductive Handle where
  | db
  | tx
  | none
  deriving Repr, DecidableEq

/-- The `InterCmd` descriptor (part_000 lines 41-47). -/
structure InterCmd where
  handle : Handle
  dest : String
  keys : List String
  aggregate : Agg

/-- The `UnionCmd` descriptor (part_001 lines 244-250). -/
structure UnionCmd where
  handle : Handle
  dest : String
  keys : List String
  aggregate : Agg

/-- `InterCmd.Run` (part_000 lines 77-85): run the query through whichever
handle is present; with neither, return the nil slice and the nil error
(the pure result is the empty list, no error arises). -/
def InterCmd.Run (c : InterCmd) (db : Db) (now : Int) : List SetItem :=
  match c.handle with
  | .none => []
  | _ => interQuery db now c.keys c.aggregate

/-- `InterCmd.Store` (part_000 lines 94-108): through a database handle the
store runs in its own transaction, rolled back on error (`db.Update`);
through a transaction handle it runs in place; with neither handle it
returns 0 and leaves the store untouched. -/
def InterCmd.Store (c : InterCmd) (db : Db) (now : Int) :
    Except Err Nat × Db :=
  match c.handle with
  | .none => (.ok 0, db)
  | .db =>
    match interStore db now c.dest c.keys c.aggregate with
    | (.ok n, db2) => (.ok n, db2)
    | (.error e, _) => (.error e, db)
  | .tx => interStore db now c.dest c.keys c.aggregate

/-- `UnionCmd.Run` (part_001 lines 281-289). -/
def UnionCmd.Run (c : UnionCmd) (db : Db) (now : Int) : List SetItem :=
  match c.handle with
  | .none => []
  | _ => unionQuery db now c.keys c.aggregate

/-- `UnionCmd.Store` (part_001 lines 299-313). -/
def UnionCmd.Store (c : UnionCmd) (db : Db) (now : Int) :
    Except Err Nat × Db :=
  match c.handle with
  | .none => (.ok 0, db)
  | .db =>
    match unionStore db now c.dest c.keys c.aggregate with
    | (.ok n, db2) => (.ok n, db2)
    | (.error e, _) => (.error e, db)
  | .tx => unionStore db now c.dest c.keys c.aggregate

/-! ### Sample stores used by witnesses and counterexamples -/

/-- A store holding one live sorted set `x = {(a, 1)}`. -/
def dbOneSet : Db := ⟨[⟨1, "x", typeSortedSet, 0, none, 0⟩], [⟨1, "a", 1⟩]⟩

/-- A store holding one live key `k` of sorted-set type. -/
def dbOneKey : Db := ⟨[⟨1, "k", typeSortedSet, 1, none, 0⟩], []⟩

/-- A store holding the live sorted set `x = {(a, 1)}` and a live key `d`
of a non-sorted-set type. -/
def dbWrongDest : Db :=
  ⟨[⟨1, "x", typeSortedSet, 0, none, 0⟩, ⟨2, "d", 1, 0, none, 0⟩],
   [⟨1, "a", 1⟩]⟩

/-- The spec's scenario sets `x = {(a,1),(b,2),(c,3)}` and
`y = {(b,10),(c,20),(d,30)}`. -/
def dbTwoSets : Db :=
  ⟨[⟨1, "x", typeSortedSet, 0, none, 0⟩, ⟨2, "y", typeSortedSet, 0, none, 0⟩],
   [⟨1, "a", 1⟩, ⟨1, "b", 2⟩, ⟨1, "c", 3⟩,
    ⟨2, "b", 10⟩, ⟨2, "c", 20⟩, ⟨2, "d", 30⟩]⟩

/-! ### Helper lemmas -/

/-- `find?` returns the one element satisfying `p` when it is unique. -/
theorem find?_unique {α : Type} {p : α → Bool} {l : List α} {x : α}
    (hx : x ∈ l) (hpx : p x = true)
    (huniq : ∀ y ∈ l, p y = true → y = x) : l.find? p = some x := by
  induction l with
  | nil => cases hx
  | cons a t ih =>
    by_cases hpa : p a = true
    · have hax : a = x := huniq a (List.mem_cons_self a t) hpa
      rw [List.find?_cons_of_pos _ hpa, hax]
    · have hxt : x ∈ t := by
        rcases List.mem_cons.mp hx with h | h
        · exact absurd (h ▸ hpx) hpa
        · exact h
      have hpa' : p a = false := Bool.eq_false_iff.mpr hpa
      simp only [List.find?, hpa']
      exact ih hxt fun y hy hpy => huniq y (List.mem_cons_of_mem a hy) hpy

/-- Every id in a page is bounded by the running maximum. -/
theorem le_maxId {keys : List KeyRec} {k : KeyRec} (hk : k ∈ keys) :
    k.id ≤ maxId keys := by
  have main : ∀ (l : List KeyRec) (a : Nat), ∀ x ∈ l,
      x.id ≤ l.foldl (fun m k => Nat.max m k.id) a := by
    intro l
    induction l with
    | nil => intro a x hx; cases hx
    | cons b t ih =>
      intro a x hx
      rcases List.mem_cons.mp hx with h | h
      · subst h
        have hbase : ∀ (l' : List KeyRec) (c : Nat),
            c ≤ l'.foldl (fun m k => Nat.max m k.id) c := by
          intro l'
          induction l' with
          | nil => intro c; exact le_rfl
          | cons d t' ih' =>
            intro c
            exact le_trans (Nat.le_max_left c d.id) (ih' (Nat.max c d.id))
        exact le_trans (Nat.le_max_right a x.id) (hbase t (Nat.max a x.id))
      · exact ih (Nat.max a b.id) x h
  exact main keys 0 k hk

/-- The running maximum of a nonempty page is attained by one of its rows
(or is the seed).  Specialised to seed 0 in `maxId_mem`. -/
theorem foldl_max_attained (l : List KeyRec) (a : Nat) :
    l.foldl (fun m k => Nat.max m k.id) a = a ∨
      ∃ k ∈ l, l.foldl (fun m k => Nat.max m k.id) a = k.id := by
  induction l generalizing a with
  | nil => exact Or.inl rfl
  | cons b t ih =>
    rcases ih (Nat.max a b.id) with h | ⟨k, hk, hfold⟩
    · simp only [List.foldl_cons, h]
      rcases max_choice a b.id with hm | hm
      · exact Or.inl hm
      · exact Or.inr ⟨b, List.mem_cons_self b t, hm⟩
    · exact Or.inr ⟨k, List.mem_cons_of_mem b hk, hfold⟩

/-- The maximum id of a page is 0 or attained by one of its rows. -/
theorem maxId_mem (keys : List KeyRec) :
    maxId keys = 0 ∨ ∃ k ∈ keys, maxId keys = k.id := by
  rcases foldl_max_attained keys 0 with h0 | hmem
  · exact Or.inl h0
  · exact Or.inr hmem

/-- A list of equal values deduplicates to at most one entry. -/
theorem dedup_length_le_one {α : Type} [DecidableEq α] {l : List α} {c : α}
    (h : ∀ a ∈ l, a = c) : l.dedup.length ≤ 1 := by
  induction l with
  | nil => simp
  | cons a t ih =>
    have ha : a = c := h a (List.mem_cons_self a t)
    have ht : ∀ x ∈ t, x = c := fun x hx => h x (List.mem_cons_of_mem a hx)
    by_cases hmem : a ∈ t
    · rw [List.dedup_cons_of_mem hmem]
      exact ih ht
    · rw [List.dedup_cons_of_not_mem hmem]
      have : t.dedup = [] := by
        rcases ht' : t.dedup with _ | ⟨b, t'⟩
        · rfl
        · have hb : b ∈ t.dedup := ht' ▸ List.mem_cons_self b t'
          have : b = c := ht b (List.mem_dedup.mp hb)
          have : a ∈ t := by
            rw [ha, ← this]
            exact List.mem_dedup.mp hb
          exact absurd this hmem
      simp [this]

/-- A guarded `etime` update never changes the row's name. -/
theorem etime_update_key (cond : KeyRec → Bool) (e : Option Int) (x : KeyRec) :
    (if cond x then { x with etime := e } else x).key = x.key := by
  by_cases h : cond x = true
  · rw [if_pos h]
  · rw [if_neg h]

/-- Facts about a row of the `rzset ⋈ rkey` join. -/
theorem mem_joined {db : Db} {now : Int} {p : String → Bool}
    {r : ZRow × KeyRec} (h : r ∈ joined db now p) :
    r.1 ∈ db.rzset ∧ r.2 ∈ db.rkey ∧ r.2.id = r.1.keyId ∧
      live now r.2 = true ∧ p r.2.key = true := by
  simp only [joined, List.mem_flatMap, List.mem_map] at h
  obtain ⟨z, hz, k, hk, hr⟩ := h
  obtain ⟨hkmem, hkcond⟩ := List.mem_filter.mp hk
  simp only [Bool.and_eq_true, beq_iff_eq] at hkcond
  cases hr
  exact ⟨hz, hkmem, hkcond.1.1, hkcond.1.2, hkcond.2⟩

/-! ### The claims -/

/-- C10: an intersect or union command descriptor carrying neither a
database handle nor a transaction handle returns the empty result from
`Run` and 0 from `Store`, with no error and without touching the store
(the pure model raises no error, and `Store` hands back the state
unchanged). -/
theorem noHandle_run_store (c : InterCmd) (u : UnionCmd) (db : Db)
    (now : Int) (hc : c.handle = Handle.none) (hu : u.handle = Handle.none) :
    c.Run db now = [] ∧ c.Store db now = (.ok 0, db) ∧
      u.Run db now = [] ∧ u.Store db now = (.ok 0, db) := by
  refine ⟨?_, ?_, ?_, ?_⟩ <;>
    simp [InterCmd.Run, InterCmd.Store, UnionCmd.Run, UnionCmd.Store, hc, hu]

/-- Witness for C10 at a concrete descriptor and store. -/
theorem noHandle_run_store_witness :
    InterCmd.Run ⟨Handle.none, "d", ["x"], Agg.sum⟩ dbOneSet 0 = [] ∧
      InterCmd.Store ⟨Handle.none, "d", ["x"], Agg.sum⟩ dbOneSet 0 =
        (.ok 0, dbOneSet) ∧
      UnionCmd.Run ⟨Handle.none, "d", ["x"], Agg.sum⟩ dbOneSet 0 = [] ∧
      UnionCmd.Store ⟨Handle.none, "d", ["x"], Agg.sum⟩ dbOneSet 0 =
        (.ok 0, dbOneSet) :=
  noHandle_run_store ⟨Handle.none, "d", ["x"], Agg.sum⟩
    ⟨Handle.none, "d", ["x"], Agg.sum⟩ dbOneSet 0 rfl rfl

/-- C8: a range-by-rank query with a negative start or stop bound returns
the empty result whatever the store holds, and raises no error (the model
is total). -/
theorem rangeRank_negative_empty (db : Db) (now : Int) (key : String)
    (start stop : Int) (dir : Dir) (h : start < 0 ∨ stop < 0) :
    rangeRank db now key start stop dir = [] := by
  unfold rangeRank
  rcases h with h | h <;> simp [h]

/-- Witness for C8: a negative start bound on a populated set. -/
theorem rangeRank_negative_empty_witness :
    rangeRank dbOneSet 0 "x" (-1) 5 Dir.asc = [] :=
  rangeRank_negative_empty dbOneSet 0 "x" (-1) 5 Dir.asc
    (Or.inl (by decide))

/-- C7: a range-by-score query orders the matching elements, then applies
offset and count as the limit clause dictates: both positive — skip
`offset`, return at most `count`; only count positive — at most `count`
from the start; only offset positive — skip `offset`, return the rest;
both zero — everything. -/
theorem rangeScore_offset_count (db : Db) (now : Int) (key : String)
    (lo hi : Score) (dir : Dir) (offset count : Int) :
    (0 < offset → 0 < count →
      rangeScore db now key lo hi dir offset count =
        ((scoreMatching db now key lo hi dir).drop offset.toNat).take
          count.toNat ∧
      (rangeScore db now key lo hi dir offset count).length ≤ count.toNat) ∧
    (offset = 0 → 0 < count →
      rangeScore db now key lo hi dir offset count =
        (scoreMatching db now key lo hi dir).take count.toNat ∧
      (rangeScore db now key lo hi dir offset count).length ≤ count.toNat) ∧
    (0 < offset → count = 0 →
      rangeScore db now key lo hi dir offset count =
        (scoreMatching db now key lo hi dir).drop offset.toNat) ∧
    (offset = 0 → count = 0 →
      rangeScore db now key lo hi dir offset count =
        scoreMatching db now key lo hi dir) := by
  unfold rangeScore
  refine ⟨fun ho hc => ?_, fun ho hc => ?_, fun ho hc => ?_, fun ho hc => ?_⟩
  · rw [if_pos ⟨ho, hc⟩]
    exact ⟨rfl, List.length_take_le _ _⟩
  · rw [if_neg (fun hb => absurd hb.1 (by simp [ho])), if_pos hc]
    exact ⟨rfl, List.length_take_le _ _⟩
  · rw [if_neg (fun hb => absurd hb.2 (by simp [hc])),
      if_neg (by simp [hc]), if_pos ho]
  · rw [if_neg (fun hb => absurd hb.1 (by simp [ho])),
      if_neg (by simp [hc]), if_neg (by simp [ho])]

/-- Witness for C7: skip 1, cap 1 on the spec's set `x`. -/
theorem rangeScore_offset_count_witness :
    rangeScore dbTwoSets 0 "x" 0 100 Dir.asc 1 1 = [⟨"b", 2⟩] := by
  have h :=
    ((rangeScore_offset_count dbTwoSets 0 "x" 0 100 Dir.asc 1 1).1
      (by decide) (by decide)).1
  rw [h]
  decide

/-- C1: when a live record of a non-sorted-set type holds the destination
name, the store form of intersect and of union fails with the wrong-type
error and leaves the store — the destination record and its value
included — unchanged: the type-filtered delete removes nothing and the
destination insert hits the name uniqueness constraint. -/
theorem store_wrongType_dest (db : Db) (now : Int) (dest : String)
    (keys : List String) (agg : Agg) (k : KeyRec)
    (huniq : UniqueKeys db) (hk : k ∈ db.rkey) (hkey : k.key = dest)
    (hlive : live now k = true) (htype : k.type ≠ typeSortedSet) :
    interStore db now dest keys agg = (.error .keyType, db) ∧
      unionStore db now dest keys agg = (.error .keyType, db) := by
  have hall : ∀ a ∈ db.rkey,
      ([dest].contains a.key && live now a && a.type == typeSortedSet)
        = false := by
    intro a ha
    by_cases hak : a.key = dest
    · have hakk : a = k := huniq a ha k hk (hak.trans hkey.symm)
      subst hakk
      simp [htype]
    · simp [hak]
  have hgone : (db.rkey.filter fun a =>
      [dest].contains a.key && live now a && a.type == typeSortedSet)
        = [] :=
    List.filter_eq_nil_iff.mpr fun a ha => by
      rw [hall a ha]
      exact Bool.false_ne_true
  have hdel : (deleteType db now typeSortedSet [dest]).2 = db := by
    unfold deleteType
    rw [hgone]
    refine congrArg₂ Db.mk ?_ ?_
    · refine List.filter_eq_self.mpr fun a ha => ?_
      rw [hall a ha]
      rfl
    · exact List.filter_eq_self.mpr fun a _ => by simp
  have hany : (db.rkey.any fun a => a.key == dest) = true :=
    List.any_eq_true.mpr ⟨k, hk, by simp [hkey]⟩
  constructor
  · unfold interStore
    rw [hdel]
    simp [insertKey, hany]
  · unfold unionStore
    rw [hdel]
    simp [insertKey, hany]

/-- Witness for C1: destination `d` holds a live plain-string-typed
record. -/
theorem store_wrongType_dest_witness :
    interStore dbWrongDest 0 "d" ["x"] Agg.sum =
      (.error .keyType, dbWrongDest) ∧
      unionStore dbWrongDest 0 "d" ["x"] Agg.sum =
        (.error .keyType, dbWrongDest) :=
  store_wrongType_dest dbWrongDest 0 "d" ["x"] Agg.sum
    ⟨2, "d", 1, 0, none, 0⟩ (by decide) (by decide) rfl rfl (by decide)

/-- C6: when the destination name is unblocked (any record carrying it is
live and sorted-set-typed, so the type-filtered delete clears it), the
store form of intersect and of union succeeds, returns exactly the number
of member rows inserted, and the freshly inserted destination record is in
the final state; if the query produced zero rows the destination holds an
empty set — no member row carries its fresh id.  `href` is the spec's
invariant 2: member rows reference existing key records.  `db1`, `kid`,
`db2`, `itemsI`, `itemsU` name the intermediate states fixed by their
defining equations. -/
theorem store_count_and_empty (db : Db) (now : Int) (dest : String)
    (keys : List String) (agg : Agg)
    (db1 : Db) (kid : Nat) (db2 : Db) (itemsI itemsU : List SetItem)
    (hclean : ∀ a ∈ db.rkey, a.key = dest →
      live now a = true ∧ a.type = typeSortedSet)
    (href : ∀ z ∈ db.rzset, ∃ a ∈ db.rkey, a.id = z.keyId)
    (hdb1 : db1 = (deleteType db now typeSortedSet [dest]).2)
    (hkid : kid = nextId db1)
    (hdb2 : db2 = ⟨db1.rkey ++
      [⟨kid, dest, typeSortedSet, initialVersion, none, now⟩], db1.rzset⟩)
    (hitemsI : itemsI = interQuery db2 now keys agg)
    (hitemsU : itemsU = unionQuery db2 now keys agg) :
    interStore db now dest keys agg =
      (.ok itemsI.length,
        ⟨db2.rkey, db2.rzset ++ itemsI.map fun it => ⟨kid, it.elem, it.score⟩⟩) ∧
    unionStore db now dest keys agg =
      (.ok itemsU.length,
        ⟨db2.rkey, db2.rzset ++ itemsU.map fun it => ⟨kid, it.elem, it.score⟩⟩) ∧
    (⟨kid, dest, typeSortedSet, initialVersion, none, now⟩ : KeyRec) ∈
      (interStore db now dest keys agg).2.rkey ∧
    (⟨kid, dest, typeSortedSet, initialVersion, none, now⟩ : KeyRec) ∈
      (unionStore db now dest keys agg).2.rkey ∧
    (itemsI = [] →
      ((interStore db now dest keys agg).2.rzset.filter
        fun z => z.keyId == kid) = []) ∧
    (itemsU = [] →
      ((unionStore db now dest keys agg).2.rzset.filter
        fun z => z.keyId == kid) = []) := by
  subst hitemsI hitemsU hdb2 hkid hdb1
  have hnodest : (((deleteType db now typeSortedSet [dest]).2).rkey.any
      fun a => a.key == dest) = false := by
    rw [List.any_eq_false]
    intro a ha
    obtain ⟨hmem, hpred⟩ := List.mem_filter.mp ha
    intro hbeq
    have hak : a.key = dest := by simpa using hbeq
    obtain ⟨hl, ht⟩ := hclean a hmem hak
    have hin : ([dest].contains a.key && live now a &&
        a.type == typeSortedSet) = true := by
      simp [hak, hl, ht]
    rw [hin] at hpred
    exact absurd hpred (by simp)
  have hins : insertKey (deleteType db now typeSortedSet [dest]).2 now dest
      typeSortedSet = .ok (nextId (deleteType db now typeSortedSet [dest]).2,
        ⟨((deleteType db now typeSortedSet [dest]).2).rkey ++
          [⟨nextId (deleteType db now typeSortedSet [dest]).2, dest,
            typeSortedSet, initialVersion, none, now⟩],
         ((deleteType db now typeSortedSet [dest]).2).rzset⟩) := by
    unfold insertKey
    rw [hnodest]
    rfl
  have hfresh : ∀ z ∈ ((deleteType db now typeSortedSet [dest]).2).rzset,
      (z.keyId == nextId (deleteType db now typeSortedSet [dest]).2) = false := by
    intro z hz
    obtain ⟨hzmem, hzpred⟩ := List.mem_filter.mp hz
    obtain ⟨a, hamem, haid⟩ := href z hzmem
    by_cases hpa : ([dest].contains a.key && live now a &&
        a.type == typeSortedSet) = true
    · exfalso
      have hgany : (List.filter (fun k => [dest].contains k.key && live now k &&
          k.type == typeSortedSet) db.rkey).any
            (fun k => k.id == z.keyId) = true :=
        List.any_eq_true.mpr ⟨a, List.mem_filter.mpr ⟨hamem, hpa⟩, by simp [haid]⟩
      rw [hgany] at hzpred
      exact absurd hzpred (by simp)
    · have hpa' : ([dest].contains a.key && live now a &&
          a.type == typeSortedSet) = false := Bool.eq_false_iff.mpr hpa
      have hada : a ∈ ((deleteType db now typeSortedSet [dest]).2).rkey :=
        List.mem_filter.mpr ⟨hamem, by rw [hpa']; rfl⟩
      have hle : a.id ≤ maxId ((deleteType db now typeSortedSet [dest]).2).rkey :=
        le_maxId hada
      have hlt : z.keyId < nextId (deleteType db now typeSortedSet [dest]).2 := by
        have hmax : z.keyId ≤ maxId ((deleteType db now typeSortedSet [dest]).2).rkey :=
          haid ▸ hle
        unfold nextId
        omega
      simp [Nat.ne_of_lt hlt]
  have heqI : interStore db now dest keys agg =
      (.ok (interQuery ⟨((deleteType db now typeSortedSet [dest]).2).rkey ++
          [⟨nextId (deleteType db now typeSortedSet [dest]).2, dest, typeSortedSet,
            initialVersion, none, now⟩],
          ((deleteType db now typeSortedSet [dest]).2).rzset⟩ now keys agg).length,
        ⟨((deleteType db now typeSortedSet [dest]).2).rkey ++
          [⟨nextId (deleteType db now typeSortedSet [dest]).2, dest, typeSortedSet,
            initialVersion, none, now⟩],
         ((deleteType db now typeSortedSet [dest]).2).rzset ++
           (interQuery ⟨((deleteType db now typeSortedSet [dest]).2).rkey ++
              [⟨nextId (deleteType db now typeSortedSet [dest]).2, dest, typeSortedSet,
                initialVersion, none, now⟩],
              ((deleteType db now typeSortedSet [dest]).2).rzset⟩ now keys agg).map
             fun it => ⟨nextId (deleteType db now typeSortedSet [dest]).2,
               it.elem, it.score⟩⟩) := by
    simp only [interStore]
    rw [hins]
  have heqU : unionStore db now dest keys agg =
      (.ok (unionQuery ⟨((deleteType db now typeSortedSet [dest]).2).rkey ++
          [⟨nextId (deleteType db now typeSortedSet [dest]).2, dest, typeSortedSet,
            initialVersion, none, now⟩],
          ((deleteType db now typeSortedSet [dest]).2).rzset⟩ now keys agg).length,
        ⟨((deleteType db now typeSortedSet [dest]).2).rkey ++
          [⟨nextId (deleteType db now typeSortedSet [dest]).2, dest, typeSortedSet,
            initialVersion, none, now⟩],
         ((deleteType db now typeSortedSet [dest]).2).rzset ++
           (unionQuery ⟨((deleteType db now typeSortedSet [dest]).2).rkey ++
              [⟨nextId (deleteType db now typeSortedSet [dest]).2, dest, typeSortedSet,
                initialVersion, none, now⟩],
              ((deleteType db now typeSortedSet [dest]).2).rzset⟩ now keys agg).map
             fun it => ⟨nextId (deleteType db now typeSortedSet [dest]).2,
               it.elem, it.score⟩⟩) := by
    simp only [unionStore]
    rw [hins]
  refine ⟨heqI, heqU, ?_, ?_, ?_, ?_⟩
  · rw [heqI]
    simp
  · rw [heqU]
    simp
  · intro hempty
    rw [heqI]
    rw [hempty]
    simp only [List.map_nil, List.append_nil]
    exact List.filter_eq_nil_iff.mpr fun z hz => by simp [hfresh z hz]
  · intro hempty
    rw [heqU]
    rw [hempty]
    simp only [List.map_nil, List.append_nil]
    exact List.filter_eq_nil_iff.mpr fun z hz => by simp [hfresh z hz]

/-- Witness for C6: storing the intersection and union of the absent key
`y` into a fresh destination `d` over `dbOneSet`; the query is empty and
the destination record exists, holding an empty set. -/
theorem store_count_and_empty_witness :
    interStore dbOneSet 0 "d" ["y"] Agg.sum =
      (.ok ([] : List SetItem).length,
        ⟨dbOneSet.rkey ++ [⟨2, "d", typeSortedSet, initialVersion, none, 0⟩],
         dbOneSet.rzset ++ ([] : List SetItem).map fun it =>
           ⟨2, it.elem, it.score⟩⟩) ∧
    unionStore dbOneSet 0 "d" ["y"] Agg.sum =
      (.ok ([] : List SetItem).length,
        ⟨dbOneSet.rkey ++ [⟨2, "d", typeSortedSet, initialVersion, none, 0⟩],
         dbOneSet.rzset ++ ([] : List SetItem).map fun it =>
           ⟨2, it.elem, it.score⟩⟩) ∧
    (⟨2, "d", typeSortedSet, initialVersion, none, 0⟩ : KeyRec) ∈
      (interStore dbOneSet 0 "d" ["y"] Agg.sum).2.rkey ∧
    (⟨2, "d", typeSortedSet, initialVersion, none, 0⟩ : KeyRec) ∈
      (unionStore dbOneSet 0 "d" ["y"] Agg.sum).2.rkey ∧
    (([] : List SetItem) = [] →
      ((interStore dbOneSet 0 "d" ["y"] Agg.sum).2.rzset.filter
        fun z => z.keyId == 2) = []) ∧
    (([] : List SetItem) = [] →
      ((unionStore dbOneSet 0 "d" ["y"] Agg.sum).2.rzset.filter
        fun z => z.keyId == 2) = []) := by
  have h := store_count_and_empty dbOneSet 0 "d" ["y"] Agg.sum
    ⟨dbOneSet.rkey, dbOneSet.rzset⟩ 2
    ⟨dbOneSet.rkey ++ [⟨2, "d", typeSortedSet, initialVersion, none, 0⟩],
     dbOneSet.rzset⟩ [] []
    (by decide) (by decide) (by decide) (by decide) (by decide)
    (by decide) (by decide)
  exact h

/-- C3 counterexample: on the live sorted set `x = {(a, 1)}`, intersecting
`x` with itself under sum yields the empty sequence, not the set with the
score doubled (`{(a, 2)}`), and under min it is empty rather than
unchanged (`{(a, 1)}`): `key in ('x','x')` matches each row once, so
`count(distinct key_id)` never reaches the required 2. -/
theorem inter_self_not_doubled :
    interQuery dbOneSet 0 ["x", "x"] Agg.sum = [] ∧
      ([⟨"a", 2⟩] : List SetItem) ≠ [] ∧
      interQuery dbOneSet 0 ["x", "x"] Agg.min = [] ∧
      ([⟨"a", 1⟩] : List SetItem) ≠ [] := by
  refine ⟨by decide, by decide, by decide, by decide⟩

/-- C3 as amended: under the schema's name uniqueness, intersecting a key
with itself (`inter([x, x])`) returns the empty sequence for every
aggregate — the duplicated name still contributes at most one distinct
key id, which can never meet the required count of 2. -/
theorem inter_self_empty (db : Db) (now : Int) (x : String) (agg : Agg)
    (huniq : UniqueKeys db) :
    interQuery db now [x, x] agg = [] := by
  have hsame : ∀ p ∈ joined db now (fun s => [x, x].contains s),
      ∀ q ∈ joined db now (fun s => [x, x].contains s),
        p.1.keyId = q.1.keyId := by
    intro p hp q hq
    obtain ⟨_, hpk, hpid, _, hpkey⟩ := mem_joined hp
    obtain ⟨_, hqk, hqid, _, hqkey⟩ := mem_joined hq
    have hpx : p.2.key = x := by simpa using hpkey
    have hqx : q.2.key = x := by simpa using hqkey
    have hpq : p.2 = q.2 := huniq p.2 hpk q.2 hqk (hpx.trans hqx.symm)
    rw [← hpid, ← hqid, hpq]
  have hempty : ((groupElems (joined db now fun s => [x, x].contains s)).filter
      fun e => distinctKeyIds (groupRows
        (joined db now fun s => [x, x].contains s) e) ==
          ([x, x] : List String).length) = [] := by
    refine List.filter_eq_nil_iff.mpr fun e _ => ?_
    intro hcount
    have h2 : distinctKeyIds (groupRows
        (joined db now fun s => [x, x].contains s) e) = 2 := by
      simpa using hcount
    have hle1 : distinctKeyIds (groupRows
        (joined db now fun s => [x, x].contains s) e) ≤ 1 := by
      unfold distinctKeyIds
      rcases hl : (groupRows (joined db now fun s => [x, x].contains s) e).map
          (fun r => r.1.keyId) with _ | ⟨c, t⟩
      · rw [hl]
        simp
      · rw [hl]
        refine dedup_length_le_one (c := c) fun b hb => ?_
        have hbl : b ∈ (groupRows (joined db now fun s => [x, x].contains s) e).map
            (fun r => r.1.keyId) := hl ▸ hb
        have hcl : c ∈ (groupRows (joined db now fun s => [x, x].contains s) e).map
            (fun r => r.1.keyId) := hl ▸ List.mem_cons_self c t
        obtain ⟨r, hr, hrb⟩ := List.mem_map.mp hbl
        obtain ⟨r', hr', hrc⟩ := List.mem_map.mp hcl
        rw [← hrb, ← hrc]
        exact hsame r (List.mem_of_mem_filter hr) r' (List.mem_of_mem_filter hr')
    omega
  simp only [interQuery]
  rw [hempty]
  rfl

/-- Witness for the amended C3 at the concrete one-element set. -/
theorem inter_self_empty_witness :
    interQuery dbOneSet 0 ["x", "x"] Agg.max = [] :=
  inter_self_empty dbOneSet 0 "x" Agg.max (by decide)

/-- C2 counterexample: over the one-key store, the second advance fetches
a zero-row page and returns false — but the third advance issues another
fetch (count 1, not 0) and even returns true, because the empty page reset
the cursor to 0 and iteration restarted. -/
theorem scanner_refetches_after_empty_page :
    let s1 := (Scanner.scan dbOneKey 0 (newScanner (fun _ => true) 10)).2.1
    let c2 := Scanner.scan dbOneKey 0 s1
    let c3 := Scanner.scan dbOneKey 0 c2.2.1
    c2.1 = false ∧ c2.2.1.keys = [] ∧ c3.2.2 = 1 ∧ c3.1 = true := by
  exact ⟨rfl, rfl, rfl, rfl⟩

/-- C2 as amended: when the buffer is exhausted and the fetched page has
zero rows, the advance returns false — but it resets the cursor to 0 and
empties the buffer, and every subsequent advance issues a fresh fetch
(from cursor 0), returning false exactly when that fetch is again empty;
against a store with matching live keys, iteration restarts. -/
theorem scanner_empty_page_behaviour (db : Db) (now : Int) (sc : Scanner)
    (hidx : sc.index ≥ sc.keys.length)
    (hout : (txScan db now sc.cursor sc.pattern sc.pageSize).keys = []) :
    Scanner.scan db now sc =
      (false, { sc with cursor := 0, keys := [], index := 0 }, 1) ∧
    (Scanner.scan db now
      { sc with cursor := 0, keys := [], index := 0 }).2.2 = 1 ∧
    ((Scanner.scan db now
      { sc with cursor := 0, keys := [], index := 0 }).1 = false ↔
        (txScan db now 0 sc.pattern sc.pageSize).keys = []) := by
  have hcur : (txScan db now sc.cursor sc.pattern sc.pageSize).cursor = 0 := by
    show maxId (txScan db now sc.cursor sc.pattern sc.pageSize).keys = 0
    rw [hout]
    rfl
  refine ⟨?_, ?_, ?_⟩
  · simp only [Scanner.scan]
    rw [if_pos hidx, hout, hcur]
    simp
  · simp only [Scanner.scan]
    by_cases hk : (txScan db now 0 sc.pattern sc.pageSize).keys = []
    · simp [hk]
    · simp [hk]
  · simp only [Scanner.scan]
    by_cases hk : (txScan db now 0 sc.pattern sc.pageSize).keys = []
    · simp [hk]
    · simp [hk]

/-- Witness for the amended C2: an exhausted scanner over the empty store,
whose page fetches always come back empty. -/
theorem scanner_empty_page_behaviour_witness :
    Scanner.scan ⟨[], []⟩ 0 ⟨5, fun _ => false, 10, 0, ⟨0, "", 0, 0, none, 0⟩, []⟩ =
      (false, ⟨0, fun _ => false, 10, 0, ⟨0, "", 0, 0, none, 0⟩, []⟩, 1) ∧
    (Scanner.scan ⟨[], []⟩ 0
      ⟨0, fun _ => false, 10, 0, ⟨0, "", 0, 0, none, 0⟩, []⟩).2.2 = 1 ∧
    ((Scanner.scan ⟨[], []⟩ 0
      ⟨0, fun _ => false, 10, 0, ⟨0, "", 0, 0, none, 0⟩, []⟩).1 = false ↔
        (txScan ⟨[], []⟩ 0 0 (fun _ => false) 10).keys = []) :=
  scanner_empty_page_behaviour ⟨[], []⟩ 0
    ⟨5, fun _ => false, 10, 0, ⟨0, "", 0, 0, none, 0⟩, []⟩
    (Nat.le_refl 0) rfl

/-- C4 counterexample: with page size 0 a scan over the one-key store
returns one record, not "at most 0" — page size 0 is replaced by the
default page size 10. -/
theorem scan_pageSize_zero_not_bounded :
    ¬ ((txScan dbOneKey 0 0 (fun _ => true) 0).keys.length ≤ 0) := by
  decide

/-- C4 as amended: for every cursor, pattern and positive page size `n`
(a page size of 0 stands for the default 10), over a table in ascending id
order, `scan` returns at most `n` live matching records with `id >
cursor` in ascending id order, its next cursor bounds and (on a nonempty
page) attains the ids seen, and the result is empty exactly when no live
matching record beyond the cursor remains. -/
theorem scan_contract (db : Db) (now : Int) (cursor : Nat)
    (pattern : String → Bool) (n : Nat) (res : ScanResult)
    (hn : 0 < n)
    (hsorted : db.rkey.Pairwise fun a b => a.id < b.id)
    (hres : res = txScan db now cursor pattern n) :
    res.keys.length ≤ n ∧
    (∀ k ∈ res.keys,
      cursor < k.id ∧ pattern k.key = true ∧ live now k = true) ∧
    res.keys.Pairwise (fun a b => a.id < b.id) ∧
    (∀ k ∈ res.keys, k.id ≤ res.cursor) ∧
    (res.keys ≠ [] → ∃ k ∈ res.keys, k.id = res.cursor) ∧
    (res.keys = [] ↔ ∀ k ∈ db.rkey,
      ¬(cursor < k.id ∧ pattern k.key = true ∧ live now k = true)) := by
  subst hres
  have hne : ¬ n = 0 := Nat.pos_iff_ne_zero.mp hn
  have hkeys : (txScan db now cursor pattern n).keys =
      (db.rkey.filter fun k =>
        cursor < k.id && pattern k.key && live now k).take n := by
    simp only [txScan]
    rw [if_neg hne]
  have hcursor : (txScan db now cursor pattern n).cursor =
      maxId ((db.rkey.filter fun k =>
        cursor < k.id && pattern k.key && live now k).take n) := by
    simp only [txScan]
    rw [if_neg hne]
  have hsub : ((db.rkey.filter fun k =>
      cursor < k.id && pattern k.key && live now k).take n).Sublist db.rkey :=
    (List.take_sublist _ _).trans (List.filter_sublist _)
  refine ⟨?_, ?_, ?_, ?_, ?_, ?_⟩
  · rw [hkeys]
    exact List.length_take_le _ _
  · rw [hkeys]
    intro k hk
    have hkf := (List.take_sublist _ _).mem hk
    have := (List.mem_filter.mp hkf).2
    simpa [Bool.and_eq_true, decide_eq_true_eq, and_assoc] using this
  · rw [hkeys]
    exact List.Pairwise.sublist hsub hsorted
  · rw [hkeys, hcursor]
    intro k hk
    exact le_maxId hk
  · rw [hkeys, hcursor]
    intro hne'
    rcases maxId_mem ((db.rkey.filter fun k =>
        cursor < k.id && pattern k.key && live now k).take n) with h0 | hatt
    · rcases hl : (db.rkey.filter fun k =>
          cursor < k.id && pattern k.key && live now k).take n with _ | ⟨a, t⟩
      · exact absurd hl hne'
      · refine ⟨a, hl ▸ List.mem_cons_self a t, ?_⟩
        have hle : a.id ≤ maxId ((db.rkey.filter fun k =>
            cursor < k.id && pattern k.key && live now k).take n) :=
          le_maxId (hl ▸ List.mem_cons_self a t)
        omega
    · obtain ⟨k, hk, hkid⟩ := hatt
      exact ⟨k, hk, hkid.symm⟩
  · rw [hkeys]
    rw [List.take_eq_nil_iff]
    constructor
    · rintro (h | h)
      · exact absurd h hne
      · intro k hk hcond
        have : k ∈ (db.rkey.filter fun k =>
            cursor < k.id && pattern k.key && live now k) :=
          List.mem_filter.mpr ⟨hk, by
            simp [Bool.and_eq_true, decide_eq_true_eq, hcond.1, hcond.2.1,
              hcond.2.2]⟩
        rw [h] at this
        cases this
    · intro h
      right
      refine List.filter_eq_nil_iff.mpr fun k hk => ?_
      intro hcond
      have hc := h k hk
      apply hc
      constructor
      · have := hcond
        simp only [Bool.and_eq_true, decide_eq_true_eq] at this
        exact this.1.1
      · have := hcond
        simp only [Bool.and_eq_true, decide_eq_true_eq] at this
        exact ⟨this.1.2, this.2⟩

/-- Witness for the amended C4 at a concrete scan over the one-key
store. -/
theorem scan_contract_witness :
    let res := txScan dbOneKey 0 0 (fun _ => true) 5
    res.keys.length ≤ 5 ∧
    (∀ k ∈ res.keys,
      0 < k.id ∧ (fun _ => true) k.key = true ∧ live 0 k = true) ∧
    res.keys.Pairwise (fun a b => a.id < b.id) ∧
    (∀ k ∈ res.keys, k.id ≤ res.cursor) ∧
    (res.keys ≠ [] → ∃ k ∈ res.keys, k.id = res.cursor) ∧
    (res.keys = [] ↔ ∀ k ∈ dbOneKey.rkey,
      ¬(0 < k.id ∧ (fun _ => true) k.key = true ∧ live 0 k = true)) :=
  scan_contract dbOneKey 0 0 (fun _ => true) 5
    (txScan dbOneKey 0 0 (fun _ => true) 5) (by decide) (by decide) rfl

/-- C5 counterexample: with `b = a` the rename is a no-op — `get(a)`
afterwards is not empty and the version is not bumped — so the claim
fails for the name `b = a`. -/
theorem rename_same_name_not_empty :
    rename dbOneKey 0 "k" "k" = .ok dbOneKey ∧
      getKey dbOneKey 0 "k" = some ⟨1, "k", typeSortedSet, 1, none, 0⟩ := by
  exact ⟨rfl, by decide⟩

/-- C5 as amended: for a live key `a` with record `pre` and any name
`b ≠ a`, after `rename(a, b)` succeeds, `get(a)` is empty and `get(b)`
returns the record with `id = pre.id`, the new name, `type = pre.type`,
`version = pre.version + 1`, `etime = pre.etime` and `mtime` advanced to
the call time. -/
theorem rename_spec (db : Db) (now : Int) (a b : String) (pre : KeyRec)
    (huniq : UniqueKeys db) (hmem : pre ∈ db.rkey) (hkey : pre.key = a)
    (hlive : live now pre = true) (hne : a ≠ b) :
    ∃ db2, rename db now a b = .ok db2 ∧
      getKey db2 now a = none ∧
      getKey db2 now b =
        some ⟨pre.id, b, pre.type, pre.version + 1, pre.etime, now⟩ := by
  have hget : getKey db now a = some pre := by
    refine find?_unique hmem ?_ ?_
    · simp [hkey, hlive]
    · intro y hy hp
      simp only [Bool.and_eq_true, beq_iff_eq] at hp
      exact huniq y hy pre hmem (hp.1.trans hkey.symm)
  have hab : (a == b) = false := beq_eq_false_iff_ne.mpr hne
  -- The state after deleting the live rows named `b`.
  have hpreq : (!([b].contains pre.key && live now pre)) = true := by
    have : [b].contains pre.key = false := by
      simp [hkey]
      exact hne
    rw [this]
    rfl
  have hmem1 : pre ∈ ((deleteKeys db now [b]).2).rkey :=
    List.mem_filter.mpr ⟨hmem, hpreq⟩
  have hget1 : getKey (deleteKeys db now [b]).2 now a = some pre := by
    refine find?_unique hmem1 ?_ ?_
    · simp [hkey, hlive]
    · intro y hy hp
      simp only [Bool.and_eq_true, beq_iff_eq] at hp
      exact huniq y (List.mem_of_mem_filter hy) pre hmem (hp.1.trans hkey.symm)
  have hlivenew : live now
      (⟨pre.id, b, pre.type, pre.version + 1, pre.etime, now⟩ : KeyRec) =
        live now pre := rfl
  refine ⟨renameExec (deleteKeys db now [b]).2 now a b, ?_, ?_, ?_⟩
  · unfold rename
    rw [hget, hab]
    simp
  · unfold renameExec
    rw [hget1]
    refine List.find?_eq_none.mpr fun y hy => ?_
    obtain ⟨r, hr, hry⟩ := List.mem_map.mp hy
    intro hp
    simp only [Bool.and_eq_true, beq_iff_eq] at hp
    by_cases hc : (r.key == a && live now r) = true
    · rw [if_pos hc] at hry
      rw [← hry] at hp
      exact hne (hp.1.symm.trans rfl) |>.elim
    · rw [if_neg hc] at hry
      apply hc
      rw [hry]
      simp [hp.1, hp.2]
  · unfold renameExec
    rw [hget1]
    have hprein : pre ∈ ((deleteKeys db now [b]).2).rkey.filter
        fun r => !(r.key == b) := by
      refine List.mem_filter.mpr ⟨hmem1, ?_⟩
      rw [hkey]
      rw [show (a == b) = false from hab]
      rfl
    have hcondpre : (pre.key == a && live now pre) = true := by
      simp [hkey, hlive]
    refine find?_unique ?_ ?_ ?_
    · refine List.mem_map.mpr ⟨pre, hprein, ?_⟩
      rw [if_pos hcondpre]
    · rw [hlivenew]
      simp [hlive]
    · intro y hy hp
      obtain ⟨r, hr, hry⟩ := List.mem_map.mp hy
      by_cases hc : (r.key == a && live now r) = true
      · rw [if_pos hc] at hry
        have hra : r.key = a ∧ live now r = true := by
          simpa using hc
        have : r = pre :=
          huniq r (List.mem_of_mem_filter (List.mem_of_mem_filter hr)) pre hmem
            (hra.1.trans hkey.symm)
        rw [← hry]
      · rw [if_neg hc] at hry
        exfalso
        have hrb : (!(r.key == b)) = true := (List.mem_filter.mp hr).2
        simp only [Bool.and_eq_true, beq_iff_eq] at hp
        rw [← hry] at hp
        have : r.key = b := hp.1
        rw [this] at hrb
        simp at hrb

/-- Witness for the amended C5: renaming `k` to `j` over the one-key
store. -/
theorem rename_spec_witness :
    ∃ db2, rename dbOneKey 0 "k" "j" = .ok db2 ∧
      getKey db2 0 "k" = none ∧
      getKey db2 0 "j" = some ⟨1, "j", typeSortedSet, 2, none, 0⟩ :=
  rename_spec dbOneKey 0 "k" "j" ⟨1, "k", typeSortedSet, 1, none, 0⟩
    (by decide) (by decide) rfl rfl (by decide)

/-- C9: for a live key `k`, setting an expiry `t > 0` from `now1` and then
persisting before it elapses (`now2 < now1 + t`) leaves the key with no
expiry: a later `get` returns its record with `etime` null (and the other
identity fields untouched). -/
theorem expire_persist_clears_etime (db : Db) (now1 now2 now3 t : Int)
    (k : String) (r : KeyRec)
    (huniq : UniqueKeys db) (hmem : r ∈ db.rkey) (hkey : r.key = k)
    (hlive : live now1 r = true) (_ht : 0 < t) (h2 : now2 < now1 + t) :
    getKey ((persist ((expire db now1 k t).1) now2 k).1) now3 k =
      some ⟨r.id, r.key, r.type, r.version, none, r.mtime⟩ := by
  unfold expire expireAt persist getKey
  have hcond1 : (r.key == k && live now1 r) = true := by simp [hkey, hlive]
  have hf1 : (if r.key == k && live now1 r then
      { r with etime := some (now1 + t) } else r) =
        { r with etime := some (now1 + t) } := if_pos hcond1
  have hlive2 : live now2 ({ r with etime := some (now1 + t) } : KeyRec)
      = true := by
    simp only [live]
    exact decide_eq_true h2
  have hcond2 : (({ r with etime := some (now1 + t) } : KeyRec).key == k &&
      live now2 { r with etime := some (now1 + t) }) = true := by
    rw [hlive2]
    simp [hkey]
  refine find?_unique ?_ ?_ ?_
  · refine List.mem_map.mpr
      ⟨{ r with etime := some (now1 + t) }, ?_, ?_⟩
    · exact List.mem_map.mpr ⟨r, hmem, hf1⟩
    · rw [if_pos hcond2]
  · simp [hkey, live]
  · intro y hy hp
    obtain ⟨x1, hx1, hyx1⟩ := List.mem_map.mp hy
    obtain ⟨x, hx, hx1x⟩ := List.mem_map.mp hx1
    have hykey : y.key = x.key := by
      rw [← hyx1, ← hx1x]
      rw [etime_update_key (fun y => y.key == k && live now2 y) none]
      exact etime_update_key (fun x => x.key == k && live now1 x)
        (some (now1 + t)) x
    simp only [Bool.and_eq_true, beq_iff_eq] at hp
    have hxk : x.key = k := hykey ▸ hp.1
    have hxr : x = r := huniq x hx r hmem (hxk.trans hkey.symm)
    rw [← hyx1, ← hx1x, hxr, hf1, if_pos hcond2]

/-- Witness for C9: expire `k` for 100 ms at time 0, persist at time 50,
read back at time 1000. -/
theorem expire_persist_clears_etime_witness :
    getKey ((persist ((expire dbOneKey 0 "k" 100).1) 50 "k").1) 1000 "k" =
      some ⟨1, "k", typeSortedSet, 1, none, 0⟩ :=
  expire_persist_clears_etime dbOneKey 0 50 1000 100 "k"
    ⟨1, "k", typeSortedSet, 1, none, 0⟩
    (by decide) (by decide) rfl rfl (by decide) (by decide)

end Redka
